import Mathlib

/-!
Verification of the `projectplanner` repository core against its design
specification.

The Python source is embedded shallowly:

* Python strings are modelled as `String` / `List Char`; `str.lower()` is
  modelled per-character on ASCII (the identifier/slug alphabets at stake are
  ASCII, and every proof only depends on characters in `[a-z0-9-]` being
  fixed points of lowercasing, which holds for Python as well).
* Python `re.sub(r"<class>+", "-", s)` (replace each maximal run of
  characters of a class by one replacement character) is modelled by the
  state machine `collapseRuns`.
* Python floats appear in exactly two places relevant here: the text
  budgeter's threshold `cutoff > limit * 0.6` and the reviewer score
  `round(max(0.0, 1.0 - 0.15 * n), 2)`.  The former is modelled exactly as
  the rational comparison `5 * cutoff > 3 * limit`, which agrees with the
  IEEE-754 evaluation for every `limit < 2 ^ 51` (the product `limit * 0.6`
  rounds to the double nearest `3 * limit / 5`, and `cutoff` is an integer).
  The latter is modelled over `ℚ`; for deduction counts `0..6` the exact
  value is a multiple of `1/100`, where the float computation and
  round-half-even agree with the rational rounding used here.
* Model/network calls are collaborators: agent behaviour is a parameter
  (an oracle function), and the retry loops are modelled over an oracle
  assigning a response to each call.
-/

namespace ProjectPlanner

/-! ## Character-level helpers shared by the sanitizer, slugifier and budgeter -/

/-- The slug alphabet `[a-z0-9-]` of `CoordinatorAgent._sanitize_id`,
written as an explicit character list so that per-character facts are
decidable. -/
def slugChars : List Char := "abcdefghijklmnopqrstuvwxyz0123456789-".toList

/-- Membership in `[a-z0-9-]` (the class kept by `_sanitize_id`). -/
def isSlugChar (c : Char) : Bool := decide (c ∈ slugChars)

/-- The alphabet `[a-z0-9]` kept by `GraphStore._slugify` (no hyphen). -/
def isLowerAlnum (c : Char) : Bool := decide (c ∈ slugChars.dropLast)

/-- ASCII model of Python `str.lower()`, applied per character. -/
def pyLower (c : Char) : Char :=
  if c.isUpper then Char.ofNat (c.toNat + 32) else c

/-- `collapseRuns p rep inRun cs` replaces each maximal run of characters
satisfying `p` by the single character `rep`; `inRun` records whether the
previous character was part of such a run.  This is the behaviour of
`re.sub(r"<class>+", rep, s)`. -/
def collapseRuns (p : Char → Bool) (rep : Char) : Bool → List Char → List Char
  | _, [] => []
  | inRun, c :: cs =>
    if p c then
      if inRun then collapseRuns p rep true cs
      else rep :: collapseRuns p rep true cs
    else c :: collapseRuns p rep false cs

/-- Drop a trailing run of `x`s, modelling the right half of
`str.strip(x)`. -/
def dropTrailing (x : Char) : List Char → List Char
  | [] => []
  | c :: cs =>
    let rest := dropTrailing x cs
    if rest = [] && c == x then [] else c :: rest

/-- Python `str.strip("-")`: drop leading and trailing hyphen runs. -/
def stripHyphens (cs : List Char) : List Char :=
  dropTrailing '-' (cs.dropWhile (· == '-'))

/-! ## `CoordinatorAgent._sanitize_id` (claim C8)

Source (`src/projectplanner/agents/coordinator_agent.py`):
```
slug = re.sub(r"[^a-z0-9-]+", "-", candidate.lower())
slug = re.sub(r"-+", "-", slug).strip("-")
if slug: return slug
if index is None: return ""
return f"m{index + 1:02d}"
```
-/

/-- The string transformation of `_sanitize_id` (lower-case, replace runs of
characters outside `[a-z0-9-]` by one hyphen, collapse hyphen runs, strip
outer hyphens). -/
def sanitizeSlug (candidate : List Char) : List Char :=
  stripHyphens
    (collapseRuns (fun c => c == '-') '-' false
      (collapseRuns (fun c => !(isSlugChar c)) '-' false (candidate.map pyLower)))

/-- Positional fallback id `m{index+1:02d}`. -/
def mSlug (n : Nat) : String :=
  if n < 10 then "m0" ++ toString n else "m" ++ toString n

/-- `CoordinatorAgent._sanitize_id(candidate, index)`. -/
def sanitizeId (candidate : List Char) (index : Option Nat) : List Char :=
  let slug := sanitizeSlug candidate
  if slug ≠ [] then slug
  else
    match index with
    | none => []
    | some i => (mSlug (i + 1)).toList

/-! ## Text budgeter: `CoordinatorAgent._compress_chunks` (claim C9)

Source:
```
joined = "\n\n".join(chunks)
if len(joined) <= limit: return joined
truncated = joined[:limit]
cutoff = truncated.rfind("\n")
if cutoff > limit * 0.6: return truncated[:cutoff]
return truncated
```
`DecomposerAgent._compress_context` shares this truncation tail verbatim
(only the way the joined sections are assembled differs).  The float
comparison `cutoff > limit * 0.6` is modelled exactly as `5 * cutoff >
3 * limit` (see the module docstring). -/

/-- Python `str.rfind(ch)`: index of the last occurrence, if any. -/
def rfindChar (target : Char) : List Char → Option Nat
  | [] => none
  | c :: cs =>
    match rfindChar target cs with
    | some i => some (i + 1)
    | none => if c = target then some 0 else none

/-- `CoordinatorAgent._compress_chunks(chunks, limit)`. -/
def compressChunks (chunks : List (List Char)) (limit : Nat) : List Char :=
  let joined := List.intercalate ('\n' :: ['\n']) chunks
  if joined.length ≤ limit then joined
  else
    let truncated := joined.take limit
    match rfindChar '\n' truncated with
    | some cutoff => if 5 * cutoff > 3 * limit then truncated.take cutoff else truncated
    | none => truncated

/-- No two adjacent hyphens occur in the list (shape invariant for the
sanitizer output). -/
def NoHH (cs : List Char) : Prop := cs.Chain' (fun a b => a = '-' → b ≠ '-')

/-! ## Reviewer rubric: `services/review.evaluate_step` (claim C2)

Source:
```
deductions = []
if not step.inputs: deductions.append(...)
if not step.outputs: ...
if not step.cited_artifacts: ...
if step.token_budget > 1200: ...
if not any("criteria" in crit.lower() or "define" in crit.lower()
           for crit in step.acceptance_criteria): ...
if len(step.system_prompt.split()) > 250: ...
score = round(max(0.0, 1.0 - 0.15 * len(deductions)), 2)
```
The pydantic model of `PromptStep` additionally validates `min_items=1` on
several list fields; `evaluate_step` itself is a total function of the
field values and is embedded as such. -/

/-- The fields of `models.PromptStep` (pydantic validation constraints such
as `min_items=1` are documented at the model, not enforced structurally
here). -/
structure PromptStep where
  id : String
  title : String
  system_prompt : String
  user_prompt : String
  expected_artifacts : List String
  tools : List String
  acceptance_criteria : List String
  inputs : List String
  outputs : List String
  token_budget : Int
  cited_artifacts : List String
  rubric_score : Option ℚ
  suggested_edits : Option String
deriving DecidableEq

/-- Word count of Python `str.split()` (split on runs of whitespace,
dropping empty fields). -/
def wordCountAux : Bool → List Char → Nat
  | _, [] => 0
  | inWord, c :: cs =>
    if c.isWhitespace then wordCountAux false cs
    else (if inWord then 0 else 1) + wordCountAux true cs

def pyWordCount (s : String) : Nat := wordCountAux false s.toList

/-- Lower-cased character list of a string (`s.lower()`). -/
def pyLowerChars (s : String) : List Char := s.toList.map pyLower

/-- Python `needle in hay.lower()` (substring containment). -/
def containsLowered (needle : String) (hay : String) : Bool :=
  decide (needle.toList <:+: pyLowerChars hay)

/-- The deduction messages accumulated by `evaluate_step`. -/
def evaluateStepDeductions (step : PromptStep) : List String :=
  (if step.inputs = [] then ["Declare explicit inputs for the agent."] else []) ++
  (if step.outputs = [] then ["List explicit outputs/artifacts."] else []) ++
  (if step.cited_artifacts = [] then ["Reference at least one prior artifact."] else []) ++
  (if step.token_budget > 1200 then ["Reduce token budget below 1200 to control cost."] else []) ++
  (if !(step.acceptance_criteria.any
      (fun crit => containsLowered "criteria" crit || containsLowered "define" crit)) then
    ["Tighten acceptance criteria with measurable statements."] else []) ++
  (if pyWordCount step.system_prompt > 250 then
    ["Condense the system prompt to stay focused."] else [])

/-- `round(q, 2)` over `ℚ`.  Python rounds half to even; every value this
development ever rounds is an exact multiple of `1/100`, where the two
conventions agree. -/
def round2 (q : ℚ) : ℚ := (⌊q * 100 + 1 / 2⌋ : ℚ) / 100

/-- The rubric score of `evaluate_step`. -/
def evaluateStepScore (step : PromptStep) : ℚ :=
  round2 (max 0 (1 - 15 / 100 * ((evaluateStepDeductions step).length : ℚ)))

/-- A prompt step violating all six checklist rules (251-word system
prompt, over-budget tokens, no inputs/outputs/citations, no measurable
qualifier in the acceptance criteria). -/
def allViolationsStep : PromptStep :=
  { id := "step-001"
    title := "t"
    system_prompt := String.mk (List.flatten (List.replicate 251 ['w', ' ']))
    user_prompt := ""
    expected_artifacts := ["a"]
    tools := []
    acceptance_criteria := ["done"]
    inputs := []
    outputs := []
    token_budget := 1300
    cited_artifacts := []
    rubric_score := none
    suggested_edits := none }

/-! ## Milestones agent (claim C4)

`MilestonesAgent._ensure_five_milestones` / `_heuristic_milestones` from
`src/projectplanner/orchestrator/agents/milestones_agent.py`. -/

/-- `orchestrator.models.Milestone` (`milestone_id` is a Python `int`;
pydantic further validates `ge=1`). -/
structure Milestone where
  milestone_id : Int
  details : String
  context : String
deriving DecidableEq

/-- `orchestrator.models.BlueprintSummary` (the `metadata` dict carries no
behaviour relevant to the claims and is modelled as an association list). -/
structure BlueprintSummary where
  run_id : String
  summary : String
  highlights : List String
  risks : List String
  components : List String
  metadata : List (String × String)
deriving DecidableEq

/-- `orchestrator.models.MilestonePlan`. -/
structure MilestonePlan where
  run_id : String
  milestones : List Milestone
  raw_response : Option String
deriving DecidableEq

/-- The inner `while next_id in existing_ids: next_id += 1` loop of
`_ensure_five_milestones`: first integer not in `existing`, starting the
search at `n`.  The fuel `existing.length + 1` always suffices, because
each skipped value is a distinct member of `existing` at least `n`
(`nextFreeAux_not_mem` below proves the loop terminates at a free id). -/
def nextFreeAux (existing : List Int) : Nat → Int → Int
  | 0, n => n
  | fuel + 1, n => if n ∈ existing then nextFreeAux existing fuel (n + 1) else n

def nextFree (existing : List Int) (n : Int) : Int :=
  nextFreeAux existing (existing.length + 1) n

/-- Details text of a padding milestone (`f"Milestone {next_id}: Expand
coverage"`). -/
def padDetails (i : Int) : String := s!"Milestone {i}: Expand coverage"

def mkPadMilestone (i : Int) : Milestone := ⟨i, padDetails i, ""⟩

/-- The `while len(filtered) < 5` padding loop of
`_ensure_five_milestones`.  Each pass appends one milestone, so the loop
runs at most five times; the fuel `5` is provably sufficient
(`padLoopAux_spec`). -/
def padLoopAux : Nat → List Milestone → List Int → Int → List Milestone
  | 0, f, _, _ => f
  | fuel + 1, f, ex, nid =>
    if f.length < 5 then
      padLoopAux fuel (f ++ [mkPadMilestone (nextFree ex nid)])
        (nextFree ex nid :: ex) (nextFree ex nid + 1)
    else f

def padLoop (filtered : List Milestone) (existing : List Int) (nid : Int) : List Milestone :=
  padLoopAux 5 filtered existing nid

def milestoneIdLe (a b : Milestone) : Bool := decide (a.milestone_id ≤ b.milestone_id)

/-- `MilestonesAgent._ensure_five_milestones(milestones)`. -/
def ensureFiveMilestones (ms : List Milestone) : List Milestone :=
  let filtered := ms.filter (fun m => m.details ≠ "")
  let padded := padLoop filtered (filtered.map (fun m => m.milestone_id)) 1
  (padded.mergeSort milestoneIdLe).take 5

/-- `MilestonesAgent._heuristic_milestones(run_id, summary)`. -/
def heuristicMilestones (run_id : String) (summary : BlueprintSummary) : MilestonePlan :=
  let baseTitles := ["Collect detailed requirements", "Design target architecture",
    "Implement core services", "Integrate experience and data", "Validate and prepare launch"]
  { run_id := run_id
    milestones := (baseTitles.enum).map (fun p =>
      let idx := p.1 + 1
      let contextBits := (summary.highlights.drop (idx - 1)).take 2
      { milestone_id := (idx : Int)
        details := p.2
        context := if contextBits ≠ [] then String.intercalate " " contextBits
                   else summary.summary })
    raw_response := none }

/-! ## Graph store (`orchestrator/graph_store.py`, claims C5 and C7) -/

/-- `orchestrator.models.GraphNode`. -/
structure GraphNode where
  id : String
  name : String
  description : Option String
  milestone_ids : List Int
deriving DecidableEq

/-- The in-memory `GraphStore`: insertion-ordered nodes keyed by slug
(Python dicts preserve insertion order). -/
structure GraphStoreState where
  run_id : String
  nodes : List GraphNode
deriving DecidableEq

/-- Drop a trailing run of characters satisfying `p`. -/
def dropTrailingWhile (p : Char → Bool) : List Char → List Char
  | [] => []
  | c :: cs =>
    let rest := dropTrailingWhile p cs
    if rest = [] && p c then [] else c :: rest

/-- Python `str.strip()` (whitespace at both ends). -/
def pyStrip (s : String) : String :=
  String.mk (dropTrailingWhile (fun c => c.isWhitespace)
    (s.toList.dropWhile (fun c => c.isWhitespace)))

/-- `GraphStore._slugify(value)`:
`re.sub(r"[^a-z0-9]+", "-", value.lower()).strip("-") or "node"`. -/
def slugifyNode (value : String) : String :=
  let normalized :=
    stripHyphens (collapseRuns (fun c => !(isLowerAlnum c)) '-' false (value.toList.map pyLower))
  if normalized ≠ [] then String.mk normalized else "node"

def emptyGraph (run_id : String) : GraphStoreState := ⟨run_id, []⟩

/-- `GraphStore.load_components(components)`. -/
def loadComponents (g : GraphStoreState) (components : List String) : GraphStoreState :=
  components.foldl (fun g raw =>
    let name := pyStrip raw
    if name = "" then g
    else
      let slug := slugifyNode name
      if slug ∈ g.nodes.map (fun n => n.id) then g
      else { g with nodes := g.nodes ++ [⟨slug, name, none, []⟩] }) g

/-- The concatenated milestone text scanned by `assign_milestones`
(`f"{milestone.details} {milestone.context}".lower()`). -/
def milestoneText (m : Milestone) : List Char := pyLowerChars (m.details ++ " " ++ m.context)

/-- One iteration of the outer loop of `GraphStore.assign_milestones`. -/
def assignMilestone (g : GraphStoreState) (m : Milestone) : GraphStoreState :=
  { g with nodes := g.nodes.map (fun node =>
      if pyLowerChars node.name <:+: milestoneText m then
        if m.milestone_id ∈ node.milestone_ids then node
        else { node with milestone_ids := node.milestone_ids ++ [m.milestone_id] }
      else node) }

/-- `GraphStore.assign_milestones(milestones)`. -/
def assignMilestones (g : GraphStoreState) (ms : List Milestone) : GraphStoreState :=
  ms.foldl assignMilestone g

/-- `orchestrator.models.GraphCoverageSnapshot`. -/
structure GraphCoverageSnapshot where
  run_id : String
  covered_nodes : List String
  uncovered_nodes : List String
  notes : Option String
deriving DecidableEq

/-- Python `sorted` on strings (code-point lexicographic). -/
def sortStrings (l : List String) : List String := l.mergeSort (fun a b => decide (a ≤ b))

/-- `GraphStore.snapshot()` (always called with `notes=None` in the
workflows under verification). -/
def snapshotOf (g : GraphStoreState) : GraphCoverageSnapshot :=
  { run_id := g.run_id
    covered_nodes := sortStrings ((g.nodes.filter (fun n => n.milestone_ids ≠ [])).map (fun n => n.name))
    uncovered_nodes := sortStrings ((g.nodes.filter (fun n => n.milestone_ids = [])).map (fun n => n.name))
    notes := none }

/-! ## Graph audit agent (`orchestrator/agents/graph_audit_agent.py`, claim C7) -/

/-- Shape of a JSON field as read by `data.get(...)`: absent/`None`, a
string, or a list (whose elements are modelled after Python's `str(item)`
coercion). -/
inductive ExtraField where
  | null
  | str (s : String)
  | items (l : List String)
deriving DecidableEq

/-- `GraphAuditAgent._merge_lists(base, extra)`. -/
def mergeLists (base : List String) (extra : ExtraField) : List String :=
  match extra with
  | .items l => base ++ ((l.map pyStrip).filter (fun s => s ≠ ""))
  | .str s => if pyStrip s ≠ "" then base ++ [pyStrip s] else base
  | .null => base

/-- Python `sorted(set(xs))` for strings. -/
def sortedSet (l : List String) : List String := sortStrings l.dedup

/-- Python `a or b` for an optional string `a` (empty string is falsy). -/
def pyOrOpt (a b : Option String) : Option String :=
  match a with
  | some s => if s ≠ "" then some s else b
  | none => b

/-- The snapshot assembled by `GraphAuditAgent.audit` on the model path,
from the baseline snapshot and the covered/uncovered/notes fields of the
parsed model response. -/
def auditMerge (run_id : String) (baseline : GraphCoverageSnapshot)
    (covExtra uncovExtra : ExtraField) (notes : Option String) : GraphCoverageSnapshot :=
  { run_id := run_id
    covered_nodes := sortedSet (mergeLists baseline.covered_nodes covExtra)
    uncovered_nodes := sortedSet (mergeLists baseline.uncovered_nodes uncovExtra)
    notes := pyOrOpt notes baseline.notes }

/-- `GraphAuditAgent._heuristic_snapshot(snapshot)` (the no-client and
error paths). -/
def heuristicSnapshot (snapshot : GraphCoverageSnapshot) : GraphCoverageSnapshot :=
  let notesFalsy := match snapshot.notes with
    | none => true
    | some s => s = ""
  let notes :=
    if snapshot.uncovered_nodes ≠ [] ∧ notesFalsy = true then
      some ("Heuristic audit: components remain uncovered. Prioritize mapping milestones to: "
        ++ String.intercalate ", " snapshot.uncovered_nodes)
    else
      pyOrOpt snapshot.notes (some "Heuristic audit: coverage inferred from milestone text.")
  { snapshot with notes := notes }

/-! ## Orchestration state machine (`orchestrator/workflow.py`, claims C1, C5, C10)

The agents (`MilestonesAgent`, `AgentPlanner`, `GraphAuditAgent`) are
collaborators that call the model; they are parameters of the embedding.
`_read_blueprint`'s filesystem resolution is external I/O; the inline-text
branch (no file of that name exists) is the one modelled: non-empty inline
text is returned as-is and empty text raises `ValueError`. -/

/-- `orchestrator.models.MilestonePrompt`. -/
structure MilestonePrompt where
  milestone_id : Int
  title : String
  system_prompt : String
  user_prompt : String
  acceptance_criteria : List String
  expected_artifacts : List String
  references : List String
deriving DecidableEq

/-- `orchestrator.models.PromptBundle`. -/
structure PromptBundle where
  run_id : String
  prompts : List MilestonePrompt
deriving DecidableEq

/-- `orchestrator.models.OrchestratorResult` (the `generated_at` timestamp
is external clock input and not modelled). -/
structure OrchestratorResult where
  run_id : String
  summary : BlueprintSummary
  milestones : MilestonePlan
  prompts : PromptBundle
  graph_report : GraphCoverageSnapshot
deriving DecidableEq

/-- The collaborator agents of `CodingOrchestrator`, as pure oracles. -/
structure OrchAgents where
  summarize : String → String → BlueprintSummary
  genMilestones : String → BlueprintSummary → MilestonePlan
  audit : String → BlueprintSummary → List Milestone → GraphStoreState → GraphCoverageSnapshot
  genPrompts : String → BlueprintSummary → List Milestone → GraphCoverageSnapshot → PromptBundle

/-- The mutable fields of a `CodingOrchestrator` session. -/
structure OrchestratorState where
  run_id : String
  blueprint_text : Option String
  summary : Option BlueprintSummary
  summary_approved : Bool
  milestones : Option MilestonePlan
  milestones_approved : Bool
  graph_snapshot : Option GraphCoverageSnapshot
  prompts : Option PromptBundle
  graph : GraphStoreState
deriving DecidableEq

/-- `CodingOrchestrator.__init__`. -/
def initialState (run_id : String) : OrchestratorState :=
  ⟨run_id, none, none, false, none, false, none, none, emptyGraph run_id⟩

/-- `CodingOrchestrator.ingest_blueprint(text)` (inline-text branch). -/
def ingestBlueprint (A : OrchAgents) (s : OrchestratorState) (text : String) :
    Except String (BlueprintSummary × OrchestratorState) :=
  if pyStrip text = "" then .error "Blueprint text cannot be empty."
  else
    let summary := A.summarize s.run_id text
    .ok (summary,
      { s with
        blueprint_text := some text
        summary := some summary
        summary_approved := false
        milestones := none
        milestones_approved := false
        prompts := none
        graph_snapshot := none
        graph := loadComponents (emptyGraph s.run_id) summary.components })

/-- `CodingOrchestrator.approve_summary(approved)`. -/
def approveSummary (s : OrchestratorState) (approved : Bool) : Except String OrchestratorState :=
  match s.summary with
  | none => .error "No summary available to approve. Run ingest_blueprint first."
  | some _ => .ok { s with summary_approved := approved }

/-- `CodingOrchestrator.generate_milestones()`. -/
def generateMilestones (A : OrchAgents) (s : OrchestratorState) :
    Except String ((MilestonePlan × GraphCoverageSnapshot) × OrchestratorState) :=
  match s.summary with
  | none => .error "Summary not generated. Call ingest_blueprint first."
  | some summary =>
    if s.summary_approved = false then
      .error "Summary must be approved before generating milestones."
    else
      let plan := A.genMilestones s.run_id summary
      let g2 := assignMilestones s.graph plan.milestones
      let snapshot := A.audit s.run_id summary plan.milestones g2
      .ok ((plan, snapshot),
        { s with milestones := some plan, graph := g2, graph_snapshot := some snapshot })

/-- `CodingOrchestrator.approve_milestones(approved)`. -/
def approveMilestones (s : OrchestratorState) (approved : Bool) : Except String OrchestratorState :=
  match s.milestones with
  | none => .error "Milestones not generated yet."
  | some _ => .ok { s with milestones_approved := approved }

/-- `CodingOrchestrator.generate_prompts()`. -/
def generatePrompts (A : OrchAgents) (s : OrchestratorState) :
    Except String (PromptBundle × OrchestratorState) :=
  match s.summary with
  | none => .error "Summary not generated. Call ingest_blueprint first."
  | some summary =>
    match s.milestones with
    | none => .error "Milestones not generated. Call generate_milestones first."
    | some plan =>
      if s.milestones_approved = false then
        .error "Milestones must be approved before prompt generation."
      else
        let snapshot := match s.graph_snapshot with
          | some snap => snap
          | none => snapshotOf s.graph
        let prompts := A.genPrompts s.run_id summary plan.milestones snapshot
        .ok (prompts, { s with prompts := some prompts })

/-- `CodingOrchestrator.finalize()`. -/
def finalize (s : OrchestratorState) : Except String OrchestratorResult :=
  match s.summary, s.milestones, s.prompts with
  | some summary, some plan, some prompts =>
    let snapshot := match s.graph_snapshot with
      | some snap => snap
      | none => snapshotOf s.graph
    .ok { run_id := s.run_id, summary := summary, milestones := plan
          prompts := prompts, graph_report := snapshot }
  | _, _, _ => .error "Workflow incomplete. Ensure prompts are generated before finalizing."

/-- `CodingOrchestrator.regenerate_summary()` (`if not self._blueprint_text`
treats both `None` and the empty string as missing). -/
def regenerateSummary (A : OrchAgents) (s : OrchestratorState) :
    Except String (BlueprintSummary × OrchestratorState) :=
  match s.blueprint_text with
  | none => .error "No blueprint available to regenerate summary."
  | some t =>
    if t = "" then .error "No blueprint available to regenerate summary."
    else ingestBlueprint A s t

def exceptOk {ε α : Type} : Except ε α → Bool
  | .ok _ => true
  | .error _ => false

/-! ## Retry-escalation loops (claim C3)

`CoordinatorAgent._request_objectives` and
`DecomposerAgent._generate_step_with_gpt` drive `create_chat_completion`
through an ordered attempt list.  The completion collaborator is modelled
as an oracle mapping the index of each call to the observable fields of
its response. -/

/-- Observable outcome of one `create_chat_completion` call:
whether `response.choices` is non-empty, the content extracted by
`extract_message_content` (empty string when absent), and the
`finish_reason` / `refusal` / `response_id` metadata. -/
structure ChatResponse where
  hasChoices : Bool
  content : String
  finishReason : Option String
  refusal : Bool
  responseId : Option String
deriving DecidableEq

/-- Control-flow outcome of a stage's attempt loop: a returned content
string, or one of the three `ValueError` raises. -/
inductive StageOutcome where
  | success (content : String)
  | noChoicesFailure
  | emptyContentFailure (finishReason : Option String) (refusal : Bool) (responseId : Option String)
  | exhaustedFailure
deriving DecidableEq

/-- Python truthiness of the optional `finish_reason` string. -/
def pyTruthyStr : Option String → Bool
  | none => false
  | some s => s ≠ ""

/-- The attempt loop of `CoordinatorAgent._request_objectives`: retries
only on `finish_reason == "length"` with a next attempt available.
Returns the outcome and the number of completion calls made; `calls`
indexes the oracle. -/
def coordinatorRequestLoop (oracle : Nat → ChatResponse) :
    List Nat → Nat → StageOutcome × Nat
  | [], calls => (.exhaustedFailure, calls)
  | _maxTokens :: rest, calls =>
    let r := oracle calls
    if r.hasChoices = false then (.noChoicesFailure, calls + 1)
    else if r.content ≠ "" then (.success r.content, calls + 1)
    else if r.finishReason = some "length" ∧ rest ≠ [] then
      coordinatorRequestLoop oracle rest (calls + 1)
    else (.emptyContentFailure r.finishReason r.refusal r.responseId, calls + 1)

/-- One decomposer attempt configuration
`(context_limit, summary_limit, max_tokens)`. -/
structure DecompAttempt where
  contextLimit : Nat
  summaryLimit : Option Nat
  maxTokens : Nat
deriving DecidableEq

/-- The attempt loop of `DecomposerAgent._generate_step_with_gpt`.  Note
the guard on the retry branch is `if finish_reason and attempt_index <
len(attempts) - 1`: it retries on any truthy finish reason, not only on
`"length"`. -/
def decomposerAttemptLoop (oracle : Nat → ChatResponse) :
    List DecompAttempt → Nat → StageOutcome × Nat
  | [], calls => (.exhaustedFailure, calls)
  | _attempt :: rest, calls =>
    let r := oracle calls
    if r.hasChoices = false then (.noChoicesFailure, calls + 1)
    else if r.content ≠ "" then (.success r.content, calls + 1)
    else if pyTruthyStr r.finishReason ∧ rest ≠ [] then
      decomposerAttemptLoop oracle rest (calls + 1)
    else (.emptyContentFailure r.finishReason r.refusal r.responseId, calls + 1)

/-! ## Coordinator objective parsing (`CoordinatorAgent._parse_objectives`,
claim C6)

`json.loads` is a collaborator; the embedding starts from the decoded
`entries` list.  Non-dict entries are skipped by the source while still
consuming their index; the embedding models the dict entries, with each
`entry.get(...)` read as an optional (already `str()`-coerced) value. -/

/-- `models.MilestoneObjective`. -/
structure MilestoneObjective where
  id : String
  order : Int
  title : String
  objective : String
  success_criteria : List String
  dependencies : List String
deriving DecidableEq

/-- One decoded JSON milestone entry, holding the fields read by
`_parse_objectives`. -/
structure RawEntry where
  id : Option String
  title : Option String
  name : Option String
  objective : Option String
  summary : Option String
  success_raw : ExtraField
  dependencies_raw : ExtraField
  order : Option Int
deriving DecidableEq

/-- `CoordinatorAgent._clean_text(value)`:
`re.sub(r"\s+", " ", str(value).strip())`, with `None` mapped to `""`. -/
def pyCleanText (v : Option String) : String :=
  match v with
  | none => ""
  | some s => String.mk (collapseRuns (fun c => c.isWhitespace) ' ' false (pyStrip s).toList)

/-- `CoordinatorAgent._normalize_list(value)`. -/
def normalizeList (v : ExtraField) : List String :=
  let items := match v with
    | .str s => [s]
    | .items l => l
    | .null => []
  (items.map (fun i => pyCleanText (some i))).filter (fun s => s ≠ "")

/-- Python `a or b` where `a` is an optional string and `b` a string. -/
def pyOrStr (v : Option String) (dflt : String) : String :=
  match v with
  | some s => if s ≠ "" then s else dflt
  | none => dflt

/-- `CoordinatorAgent._safe_order(value, fallback)`. -/
def safeOrder (v : Option Int) (fallback : Nat) : Int :=
  match v with
  | some o => if o ≥ 0 then o else (fallback : Int)
  | none => (fallback : Int)

/-- Assignment into a Python dict modelled as an association list
(later assignments to the same key overwrite). -/
def dictSet (d : List (String × String)) (k v : String) : List (String × String) :=
  if d.any (fun p => p.1 == k) then d.map (fun p => if p.1 == k then (k, v) else p)
  else d ++ [(k, v)]

/-- `dict.get(k)`. -/
def dictGet (d : List (String × String)) (k : String) : Option String :=
  (d.find? (fun p => p.1 == k)).map (fun p => p.2)

/-- An element of the `prepared` list of `_parse_objectives`, before
dependency resolution. -/
structure PreparedItem where
  id : String
  title : String
  objective : String
  success : List String
  dependencies : List String
  order : Int
deriving DecidableEq

/-- First enumeration pass of `_parse_objectives`: build `prepared` and the
`id_lookup` dict. -/
def prepareEntries : List RawEntry → Nat → List (String × String) →
    List PreparedItem × List (String × String)
  | [], _, lookup => ([], lookup)
  | e :: rest, idx, lookup =>
    let rawId := pyOrStr e.id (mSlug (idx + 1))
    let sanitized := String.mk (sanitizeId rawId.toList (some idx))
    let lookup2 := dictSet (dictSet lookup (String.mk (pyLowerChars rawId)) sanitized)
      sanitized sanitized
    let title := pyCleanText (some (pyOrStr (pyOrOpt e.title e.name) s!"Milestone {idx + 1}"))
    let objective := pyCleanText (some (pyOrStr (pyOrOpt e.objective e.summary) title))
    let success0 := normalizeList e.success_raw
    let success := if success0 = [] then [s!"Objective for {title} is achieved."] else success0
    let deps := normalizeList e.dependencies_raw
    let item : PreparedItem := ⟨sanitized, title, objective, success, deps, safeOrder e.order idx⟩
    let (items, lookupF) := prepareEntries rest (idx + 1) lookup2
    (item :: items, lookupF)

/-- `dict.fromkeys`-style deduplication, keeping first occurrences. -/
def dedupFirstAux (seen : List String) : List String → List String
  | [] => []
  | x :: xs => if x ∈ seen then dedupFirstAux seen xs else x :: dedupFirstAux (x :: seen) xs

def dedupFirst (l : List String) : List String := dedupFirstAux [] l

/-- `normalized = id_lookup.get(key) or self._sanitize_id(str(dep), None)`
for one raw reference. -/
def resolveOne (lookup : List (String × String)) (dep : String) : String :=
  match dictGet lookup (String.mk (pyLowerChars dep)) with
  | some v => if v ≠ "" then v else String.mk (sanitizeId dep.toList none)
  | none => String.mk (sanitizeId dep.toList none)

/-- Dependency resolution for one prepared item (second pass of
`_parse_objectives`): keep a reference only if it resolves to a valid,
non-self id; deduplicate keeping first occurrences. -/
def resolveDeps (lookup : List (String × String)) (validIds : List String)
    (item : PreparedItem) : List String :=
  dedupFirst (item.dependencies.filterMap (fun dep =>
    if resolveOne lookup dep ≠ "" ∧ resolveOne lookup dep ∈ validIds ∧
        resolveOne lookup dep ≠ item.id then
      some (resolveOne lookup dep)
    else none))

/-- Sort key `(item["order"], item["id"])` of `_parse_objectives`. -/
def itemLe (a b : PreparedItem) : Bool :=
  decide (a.order < b.order) || (decide (a.order = b.order) && decide (a.id ≤ b.id))

/-- The final `enumerate(prepared)` loop of `_parse_objectives`: rebuild
each item as a `MilestoneObjective` with its position as `order`. -/
def renumber : Nat → List PreparedItem → List MilestoneObjective
  | _, [] => []
  | idx, item :: rest =>
    ⟨item.id, (idx : Int), item.title, item.objective, item.success, item.dependencies⟩ ::
      renumber (idx + 1) rest

/-- The dependency-rewriting pass applied to every prepared item. -/
def resolveAll (prep : List PreparedItem × List (String × String)) : List PreparedItem :=
  prep.1.map (fun i =>
    { i with dependencies := resolveDeps prep.2 (prep.1.map (fun j => j.id)) i })

/-- `CoordinatorAgent._parse_objectives`, from the decoded entries to the
final `MilestoneObjective` list. -/
def parseObjectivesEntries (entries : List RawEntry) : List MilestoneObjective :=
  if (prepareEntries entries 0 []).1 = [] then []
  else renumber 0 ((resolveAll (prepareEntries entries 0 [])).mergeSort itemLe)

/-- Decoded JSON entries used by the claim C6 witness: `"M2"` cites a
valid dependency twice, itself, and an unknown id. -/
def sampleEntries : List RawEntry :=
  [⟨some "M1", none, none, none, none, .null, .null, none⟩,
   ⟨some "M2", none, none, none, none, .null, .items ["M1", "M2", "M1", "nope"], none⟩]

/-- The second objective produced from `sampleEntries`. -/
def sampleObjective : MilestoneObjective :=
  (parseObjectivesEntries sampleEntries).getD 1 ⟨"", 0, "", "", [], []⟩

/-! ## Concrete fixtures used by witness theorems -/

def sampleSummary : BlueprintSummary :=
  ⟨"run", "summary text", ["h1", "h2"], [], ["Auth", "Billing Service"], []⟩

def samplePlan : MilestonePlan := ⟨"run", [⟨1, "Implement auth", "auth"⟩], none⟩

def sampleBundle : PromptBundle := ⟨"run", []⟩

def sampleSnapshot : GraphCoverageSnapshot := ⟨"run", ["Auth"], ["Billing Service"], none⟩

def sampleAgents : OrchAgents :=
  ⟨fun _ _ => sampleSummary, fun _ _ => samplePlan,
    fun _ _ _ _ => sampleSnapshot, fun _ _ _ _ => sampleBundle⟩

/-- A session whose summary has been generated but not yet approved. -/
def readyForMilestones : OrchestratorState :=
  ⟨"run", some "text", some sampleSummary, false, none, false, none, none,
    loadComponents (emptyGraph "run") sampleSummary.components⟩

/-- A session whose milestones have been generated but not yet approved. -/
def readyForPrompts : OrchestratorState :=
  { readyForMilestones with
    summary_approved := true
    milestones := some samplePlan
    graph_snapshot := some sampleSnapshot }

/-- A session with prompts generated and both approvals subsequently
revoked. -/
def completedState : OrchestratorState :=
  { readyForPrompts with
    summary_approved := false
    milestones_approved := false
    prompts := some sampleBundle }

/-! ### Lemmas: characterization of the sanitizer output -/

theorem mem_collapseRuns {p : Char → Bool} {rep : Char} :
    ∀ {b : Bool} {cs : List Char}, ∀ c ∈ collapseRuns p rep b cs,
      c = rep ∨ (c ∈ cs ∧ p c = false) := by
  intro b cs
  induction cs generalizing b with
  | nil => simp [collapseRuns]
  | cons x xs ih =>
    intro c hc
    simp only [collapseRuns] at hc
    split at hc
    · split at hc
      · rcases ih c hc with h | ⟨hm, hp⟩
        · exact Or.inl h
        · exact Or.inr ⟨List.mem_cons_of_mem _ hm, hp⟩
      · rcases List.mem_cons.mp hc with rfl | hc
        · exact Or.inl rfl
        · rcases ih c hc with h | ⟨hm, hp⟩
          · exact Or.inl h
          · exact Or.inr ⟨List.mem_cons_of_mem _ hm, hp⟩
    · rcases List.mem_cons.mp hc with rfl | hc
      · rename_i hpx
        exact Or.inr ⟨List.mem_cons_self _ _, by simpa using hpx⟩
      · rcases ih c hc with h | ⟨hm, hp⟩
        · exact Or.inl h
        · exact Or.inr ⟨List.mem_cons_of_mem _ hm, hp⟩

/-- In the run-collapsing state machine, the replacement character is only
emitted when entering a run, so from the in-run state the output never starts
with a character of the collapsed class. -/
theorem head_collapseRuns_true {p : Char → Bool} {rep : Char} :
    ∀ cs : List Char, ∀ c ∈ (collapseRuns p rep true cs).head?, p c = false := by
  intro cs
  induction cs with
  | nil => simp [collapseRuns]
  | cons x xs ih =>
    simp only [collapseRuns]
    split
    · exact ih
    · rename_i hpx
      intro c hc
      simp only [List.head?_cons, Option.mem_def, Option.some.injEq] at hc
      subst hc
      simpa using hpx

/-- The second regex pass (`re.sub(r"-+", "-", slug)`) leaves no adjacent
hyphens. -/
theorem noHH_collapseRuns :
    ∀ (b : Bool) (cs : List Char),
      NoHH (collapseRuns (fun c => c == '-') '-' b cs) := by
  intro b cs
  induction cs generalizing b with
  | nil => simp [collapseRuns, NoHH]
  | cons x xs ih =>
    simp only [collapseRuns]
    split
    · split
      · exact ih true
      · refine List.chain'_cons'.mpr ⟨?_, ih true⟩
        intro y hy
        intro _
        have := @head_collapseRuns_true (fun c => c == '-') '-' xs y hy
        simpa using this
    · refine List.chain'_cons'.mpr ⟨?_, ih false⟩
      intro y hy hx
      rename_i hpx
      exact absurd (by simpa using hx) (by simpa using hpx)

theorem dropTrailing_cons (x c : Char) (cs : List Char) :
    dropTrailing x (c :: cs) =
      if (decide (dropTrailing x cs = []) && (c == x)) = true then []
      else c :: dropTrailing x cs := rfl

theorem dropTrailing_prefixOf (x : Char) : ∀ cs : List Char, dropTrailing x cs <+: cs := by
  intro cs
  induction cs with
  | nil => simp [dropTrailing]
  | cons c cs ih =>
    simp only [dropTrailing]
    split
    · exact ⟨c :: cs, rfl⟩
    · exact (List.prefix_cons_inj c).mpr ih

theorem dropTrailing_getLast_ne (x : Char) :
    ∀ cs : List Char, (dropTrailing x cs).getLast? ≠ some x := by
  intro cs
  induction cs with
  | nil => simp [dropTrailing]
  | cons c cs ih =>
    simp only [dropTrailing]
    split
    · simp
    · rename_i hcond
      rcases h : dropTrailing x cs with _ | ⟨d, ds⟩
      · have : ¬(c == x) = true := by
          intro hx
          exact hcond (by simp [h, hx])
        simp only [List.getLast?_singleton, ne_eq, Option.some.injEq]
        intro hcx
        exact this (by simp [hcx])
      · rw [h] at ih
        simpa [List.getLast?_cons_cons] using ih

theorem head_dropWhile_not (q : Char → Bool) (l : List Char) :
    ∀ h ∈ (l.dropWhile q).head?, q h = false := by
  induction l with
  | nil => simp
  | cons c cs ih =>
    simp only [List.dropWhile_cons]
    split
    · exact ih
    · simp_all

theorem dropTrailing_head (x c : Char) (cs : List Char) :
    dropTrailing x (c :: cs) = [] ∨ ∃ t, dropTrailing x (c :: cs) = c :: t := by
  simp only [dropTrailing]
  split
  · exact Or.inl rfl
  · exact Or.inr ⟨_, rfl⟩

theorem mem_stripHyphens {c : Char} {cs : List Char} (h : c ∈ stripHyphens cs) :
    c ∈ cs := by
  unfold stripHyphens at h
  exact (List.dropWhile_suffix _).subset ((dropTrailing_prefixOf '-' _).subset h)

theorem stripHyphens_head_ne (cs : List Char) :
    ∀ h ∈ (stripHyphens cs).head?, h ≠ '-' := by
  unfold stripHyphens
  cases hcase : cs.dropWhile (· == '-') with
  | nil => simp [dropTrailing]
  | cons d ds =>
    rcases dropTrailing_head '-' d ds with heq | ⟨t, heq⟩
    · rw [heq]
      simp
    · rw [heq]
      intro h hh
      simp only [List.head?_cons, Option.mem_def, Option.some.injEq] at hh
      subst hh
      have hq := head_dropWhile_not (· == '-') cs
      rw [hcase] at hq
      have hd := hq d (by simp)
      intro hcontra
      subst hcontra
      simp at hd

/-- The sanitizer's output alphabet and shape: only `[a-z0-9-]` characters,
no adjacent hyphens, and no leading or trailing hyphen. -/
theorem sanitizeSlug_shape (cs : List Char) :
    (∀ c ∈ sanitizeSlug cs, isSlugChar c = true) ∧
    NoHH (sanitizeSlug cs) ∧
    (∀ h ∈ (sanitizeSlug cs).head?, h ≠ '-') ∧
    (sanitizeSlug cs).getLast? ≠ some '-' := by
  refine ⟨?_, ?_, stripHyphens_head_ne _, ?_⟩
  · intro c hc
    have hmem2 := mem_stripHyphens hc
    rcases mem_collapseRuns c hmem2 with rfl | ⟨hm1, _⟩
    · decide
    · rcases mem_collapseRuns c hm1 with rfl | ⟨_, hp⟩
      · decide
      · simpa using hp
  · have h2 : NoHH (collapseRuns (fun c => c == '-') '-' false
        (collapseRuns (fun c => !(isSlugChar c)) '-' false (cs.map pyLower))) :=
      noHH_collapseRuns false _
    have h3 : NoHH ((collapseRuns (fun c => c == '-') '-' false
        (collapseRuns (fun c => !(isSlugChar c)) '-' false
          (cs.map pyLower))).dropWhile (· == '-')) :=
      h2.suffix (List.dropWhile_suffix _)
    exact h3.prefix (dropTrailing_prefixOf '-' _)
  · exact dropTrailing_getLast_ne '-' _

/-! ### Lemmas: the sanitizer is the identity on its own output -/

theorem collapseRuns_id_of_not {p : Char → Bool} {rep : Char} :
    ∀ (b : Bool) (cs : List Char), (∀ c ∈ cs, p c = false) →
      collapseRuns p rep b cs = cs := by
  intro b cs
  induction cs generalizing b with
  | nil => simp [collapseRuns]
  | cons x xs ih =>
    intro h
    have hx : p x = false := h x (List.mem_cons_self _ _)
    simp only [collapseRuns, hx]
    simp only [Bool.false_eq_true, if_false]
    rw [ih false (fun c hc => h c (List.mem_cons_of_mem _ hc))]

theorem collapseRuns_hyphen_id :
    ∀ cs : List Char, NoHH cs →
      collapseRuns (fun c => c == '-') '-' false cs = cs ∧
      ((∀ h ∈ cs.head?, h ≠ '-') → collapseRuns (fun c => c == '-') '-' true cs = cs) := by
  intro cs
  induction cs with
  | nil => simp [collapseRuns]
  | cons x xs ih =>
    intro hno
    have hno' : NoHH xs := (List.chain'_cons'.mp hno).2
    have hrel : ∀ y ∈ xs.head?, x = '-' → y ≠ '-' := (List.chain'_cons'.mp hno).1
    by_cases hx : x = '-'
    · subst hx
      have hhead : ∀ h ∈ xs.head?, h ≠ '-' := fun y hy => hrel y hy rfl
      have hxs : collapseRuns (fun c => c == '-') '-' true xs = xs :=
        (ih hno').2 hhead
      constructor
      · simp [collapseRuns, hxs]
      · intro hcontra
        exact absurd rfl (hcontra '-' (by simp))
    · have hxs : collapseRuns (fun c => c == '-') '-' false xs = xs := (ih hno').1
      have hxb : ((x == '-') = true) → False := by
        intro h
        exact hx (by simpa using h)
      constructor
      · simp only [collapseRuns]
        split
        · exact absurd (by assumption) hxb
        · rw [hxs]
      · intro _
        simp only [collapseRuns]
        split
        · exact absurd (by assumption) hxb
        · rw [hxs]

theorem dropWhile_id_of_head (q : Char → Bool) (cs : List Char)
    (h : ∀ c ∈ cs.head?, q c = false) : cs.dropWhile q = cs := by
  cases cs with
  | nil => simp
  | cons x xs =>
    have hx : q x = false := h x (by simp)
    simp [List.dropWhile_cons, hx]

theorem dropTrailing_id_of_getLast (x : Char) :
    ∀ cs : List Char, cs.getLast? ≠ some x → dropTrailing x cs = cs := by
  intro cs
  induction cs with
  | nil => simp [dropTrailing]
  | cons c cs ih =>
    intro h
    cases cs with
    | nil =>
      have hcx : c ≠ x := by
        intro hc
        exact h (by simp [hc])
      simp [dropTrailing, hcx]
    | cons d ds =>
      have h2 : (d :: ds).getLast? ≠ some x := by
        rwa [List.getLast?_cons_cons] at h
      have hrec := ih h2
      rw [dropTrailing_cons, hrec]
      simp

theorem pyLower_id_of_slug {c : Char} (h : isSlugChar c = true) : pyLower c = c := by
  have hmem : c ∈ slugChars := by
    have := of_decide_eq_true h
    exact this
  have hall : ∀ c ∈ slugChars, pyLower c = c := by decide
  exact hall c hmem

/-- `sanitizeSlug` is the identity on lists that already have the output
shape. -/
theorem sanitizeSlug_id_of_shape (cs : List Char)
    (h1 : ∀ c ∈ cs, isSlugChar c = true)
    (h2 : NoHH cs)
    (h3 : ∀ h ∈ cs.head?, h ≠ '-')
    (h4 : cs.getLast? ≠ some '-') :
    sanitizeSlug cs = cs := by
  unfold sanitizeSlug stripHyphens
  have hmap : cs.map pyLower = cs := by
    have hcongr : ∀ c ∈ cs, pyLower c = id c := fun c hc => pyLower_id_of_slug (h1 c hc)
    rw [List.map_congr_left hcongr, List.map_id]
  rw [hmap]
  have hpass1 : collapseRuns (fun c => !(isSlugChar c)) '-' false cs = cs := by
    apply collapseRuns_id_of_not
    intro c hc
    simp [h1 c hc]
  rw [hpass1]
  have hpass2 : collapseRuns (fun c => c == '-') '-' false cs = cs :=
    (collapseRuns_hyphen_id cs h2).1
  rw [hpass2]
  have hdrop : cs.dropWhile (· == '-') = cs := by
    apply dropWhile_id_of_head
    intro c hc
    simpa using h3 c hc
  rw [hdrop]
  exact dropTrailing_id_of_getLast '-' cs h4

theorem rfindChar_cons (target c : Char) (cs : List Char) :
    rfindChar target (c :: cs) =
      match rfindChar target cs with
      | some i => some (i + 1)
      | none => if c = target then some 0 else none := rfl

theorem rfindChar_lt_length {target : Char} :
    ∀ {cs : List Char} {i : Nat}, rfindChar target cs = some i → i < cs.length := by
  intro cs
  induction cs with
  | nil => intro i h; simp [rfindChar] at h
  | cons c cs ih =>
    intro i h
    cases hrec : rfindChar target cs with
    | some j =>
      simp only [rfindChar_cons, hrec, Option.some.injEq] at h
      subst h
      exact Nat.succ_lt_succ (ih hrec)
    | none =>
      simp only [rfindChar_cons, hrec] at h
      split at h
      · simp only [Option.some.injEq] at h
        subst h
        simp
      · simp at h

theorem rfindChar_get {target : Char} :
    ∀ {cs : List Char} {i : Nat}, rfindChar target cs = some i → cs.get? i = some target := by
  intro cs
  induction cs with
  | nil => intro i h; simp [rfindChar] at h
  | cons c cs ih =>
    intro i h
    cases hrec : rfindChar target cs with
    | some j =>
      simp only [rfindChar_cons, hrec, Option.some.injEq] at h
      subst h
      simpa using ih hrec
    | none =>
      simp only [rfindChar_cons, hrec] at h
      split at h
      · simp only [Option.some.injEq] at h
        subst h
        rename_i hc
        simp [hc]
      · simp at h

/-! ## Claim C8 -/

/-- Claim C8: the identifier sanitizer of
`CoordinatorAgent._sanitize_id` is idempotent: for every string `s`,
`sanitize(sanitize(s)) == sanitize(s)`, both for the bare slug
transformation and for the full `_sanitize_id(·, None)` entry point. -/
theorem sanitize_idempotent (s : List Char) :
    sanitizeSlug (sanitizeSlug s) = sanitizeSlug s ∧
    sanitizeId (sanitizeId s none) none = sanitizeId s none := by
  obtain ⟨h1, h2, h3, h4⟩ := sanitizeSlug_shape s
  have hid : sanitizeSlug (sanitizeSlug s) = sanitizeSlug s :=
    sanitizeSlug_id_of_shape _ h1 h2 h3 h4
  refine ⟨hid, ?_⟩
  unfold sanitizeId
  by_cases hempty : sanitizeSlug s = []
  · simp only [hempty]
    simp [sanitizeSlug, stripHyphens, collapseRuns, dropTrailing]
  · simp [hempty, hid]

/-! ## Claim C9 -/

theorem compressChunks_joined_le {chunks : List (List Char)} {limit : Nat}
    (h : (List.intercalate ('\n' :: ['\n']) chunks).length ≤ limit) :
    compressChunks chunks limit = List.intercalate ('\n' :: ['\n']) chunks := by
  unfold compressChunks
  simp [h]

/-- Claim C9 (amended): the budgeter's output never exceeds the ceiling,
and when the joined text exceeds the ceiling the output backtracks to the
last line boundary within the ceiling exactly when that boundary lies
strictly later than 60% of the ceiling (the boundary index is a newline
character); otherwise the hard cut at the ceiling is returned.  The
original claim's inclusive "no earlier than 60%" fails at the exact-60%
boundary (`compressChunks_claim_boundary` below). -/
theorem compressChunks_spec (chunks : List (List Char)) (limit : Nat) :
    (compressChunks chunks limit).length ≤ limit ∧
    (∀ cutoff, (List.intercalate ('\n' :: ['\n']) chunks).length > limit →
      rfindChar '\n' ((List.intercalate ('\n' :: ['\n']) chunks).take limit) = some cutoff →
      ((List.intercalate ('\n' :: ['\n']) chunks).take limit).get? cutoff = some '\n' ∧
      (5 * cutoff > 3 * limit →
        compressChunks chunks limit =
          ((List.intercalate ('\n' :: ['\n']) chunks).take limit).take cutoff) ∧
      (¬(5 * cutoff > 3 * limit) →
        compressChunks chunks limit = (List.intercalate ('\n' :: ['\n']) chunks).take limit)) ∧
    ((List.intercalate ('\n' :: ['\n']) chunks).length > limit →
      rfindChar '\n' ((List.intercalate ('\n' :: ['\n']) chunks).take limit) = none →
      compressChunks chunks limit = (List.intercalate ('\n' :: ['\n']) chunks).take limit) := by
  have htake : ∀ (n : Nat) (l : List Char), (l.take n).length ≤ n := by
    intro n l
    rw [List.length_take]
    exact Nat.min_le_left _ _
  refine ⟨?_, ?_, ?_⟩
  · unfold compressChunks
    by_cases hlen : (List.intercalate ('\n' :: ['\n']) chunks).length ≤ limit
    · simp [hlen]
    · simp only [hlen, if_false]
      cases hfind : rfindChar '\n' ((List.intercalate ('\n' :: ['\n']) chunks).take limit) with
      | some cutoff =>
        simp only [hfind]
        split
        · have h1 : (((List.intercalate ('\n' :: ['\n']) chunks).take limit).take cutoff).length ≤
              (((List.intercalate ('\n' :: ['\n']) chunks).take limit)).length :=
            (List.take_sublist _ _).length_le
          have h2 := htake limit (List.intercalate ('\n' :: ['\n']) chunks)
          omega
        · exact htake _ _
      | none =>
        simp only [hfind]
        exact htake _ _
  · intro cutoff hlen hfind
    refine ⟨rfindChar_get hfind, ?_, ?_⟩
    · intro hgt
      unfold compressChunks
      simp [Nat.not_le.mpr hlen, hfind, hgt]
    · intro hgt
      unfold compressChunks
      simp [Nat.not_le.mpr hlen, hfind, hgt]
  · intro hlen hfind
    unfold compressChunks
    simp [Nat.not_le.mpr hlen, hfind]

/-- Claim C9 counterexample: ceiling 10, joined text `"abcdef\nxyzZ"`
(length 11).  The last newline within the ceiling sits at index 6, exactly
60% of the ceiling — "no earlier than 60%" — yet `_compress_chunks`
returns the hard cut `"abcdef\nxyz"` (which ends mid-line) instead of the
line boundary `"abcdef"`: the code's comparison `cutoff > limit * 0.6` is
strict. -/
theorem compressChunks_claim_boundary :
    ("abcdef\nxyzZ".toList).length > 10 ∧
    rfindChar '\n' (("abcdef\nxyzZ".toList).take 10) = some 6 ∧
    5 * 6 ≥ 3 * 10 ∧
    compressChunks ["abcdef\nxyzZ".toList] 10 = "abcdef\nxyz".toList ∧
    compressChunks ["abcdef\nxyzZ".toList] 10 ≠ "abcdef".toList := by
  decide

/-! ## Claim C2 -/

theorem round2_max_bounds (n : Nat) :
    0 ≤ round2 (max 0 (1 - 15 / 100 * (n : ℚ))) ∧
    round2 (max 0 (1 - 15 / 100 * (n : ℚ))) ≤ 1 ∧
    (n = 6 → round2 (max 0 (1 - 15 / 100 * (n : ℚ))) = 1 / 10) := by
  by_cases h7 : n ≥ 7
  · have hc : (7 : ℚ) ≤ (n : ℚ) := by exact_mod_cast h7
    have hle : (1 : ℚ) - 15 / 100 * (n : ℚ) ≤ 0 := by nlinarith
    have hmax : max 0 ((1 : ℚ) - 15 / 100 * (n : ℚ)) = 0 := max_eq_left hle
    have hzero : round2 0 = 0 := by
      unfold round2
      have hf : ⌊(0 : ℚ) * 100 + 1 / 2⌋ = 0 := by
        apply Int.floor_eq_iff.mpr
        constructor
        · norm_num
        · norm_num
      rw [hf]
      norm_num
    rw [hmax, hzero]
    refine ⟨le_refl _, by norm_num, ?_⟩
    intro h6
    omega
  · have hle : n ≤ 6 := by omega
    have hn6 : (n : ℚ) ≤ 6 := by exact_mod_cast hle
    have hn0 : (0 : ℚ) ≤ (n : ℚ) := by positivity
    have hmax : max 0 ((1 : ℚ) - 15 / 100 * (n : ℚ)) = 1 - 15 / 100 * (n : ℚ) :=
      max_eq_right (by nlinarith)
    have hval : ((1 : ℚ) - 15 / 100 * (n : ℚ)) * 100 + 1 / 2 =
        ((100 - 15 * (n : ℤ) : ℤ) : ℚ) + 1 / 2 := by
      push_cast
      ring
    have hfloor : ⌊((1 : ℚ) - 15 / 100 * (n : ℚ)) * 100 + 1 / 2⌋ = 100 - 15 * (n : ℤ) := by
      rw [hval]
      apply Int.floor_eq_iff.mpr
      constructor
      · linarith
      · push_cast
        linarith
    unfold round2
    rw [hmax, hfloor]
    have h10 : (10 : ℤ) ≤ 100 - 15 * (n : ℤ) := by omega
    have h100 : (100 - 15 * (n : ℤ)) ≤ 100 := by omega
    have h10q : (10 : ℚ) ≤ ((100 - 15 * (n : ℤ) : ℤ) : ℚ) := by exact_mod_cast h10
    have h100q : ((100 - 15 * (n : ℤ) : ℤ) : ℚ) ≤ 100 := by exact_mod_cast h100
    refine ⟨by linarith, by linarith, ?_⟩
    intro h6
    subst h6
    norm_num

/-- Claim C2 (amended): every rubric score of `evaluate_step` lies in
`[0, 1]`, computed as `round(max(0, 1 - 0.15 * violations), 2)`; a step
violating all six checklist rules scores exactly `0.1` — not `0.0`, since
`1 - 6 * 0.15 = 0.1 > 0` and the floor never engages. -/
theorem evaluateStep_score_bounds (step : PromptStep) :
    0 ≤ evaluateStepScore step ∧ evaluateStepScore step ≤ 1 ∧
    ((evaluateStepDeductions step).length = 6 → evaluateStepScore step = 1 / 10) := by
  have h := round2_max_bounds (evaluateStepDeductions step).length
  exact ⟨h.1, h.2.1, h.2.2⟩

set_option maxRecDepth 100000 in
/-- Claim C2 witness: the all-six-violations step realizes the amended
claim's hypothesis, scoring `0.1`. -/
theorem evaluateStep_score_bounds_witness :
    (evaluateStepDeductions allViolationsStep).length = 6 ∧
    evaluateStepScore allViolationsStep = 1 / 10 :=
  ⟨by decide, (evaluateStep_score_bounds allViolationsStep).2.2 (by decide)⟩

set_option maxRecDepth 100000 in
/-- Claim C2 counterexample: a concrete step violating all six checklist
rules (no inputs, no outputs, no cited artifacts, 1300-token budget, no
measurable qualifier, 251-word system prompt) scores `0.1`, refuting the
claim that it scores exactly `0.0`. -/
theorem evaluateStep_all_six_not_zero :
    (evaluateStepDeductions allViolationsStep).length = 6 ∧
    evaluateStepScore allViolationsStep = 1 / 10 ∧
    evaluateStepScore allViolationsStep ≠ 0 := by
  have hlen : (evaluateStepDeductions allViolationsStep).length = 6 := by decide
  have hval : evaluateStepScore allViolationsStep = 1 / 10 := by
    unfold evaluateStepScore
    rw [hlen]
    exact (round2_max_bounds 6).2.2 rfl
  refine ⟨hlen, hval, ?_⟩
  rw [hval]
  norm_num

/-! ## Claim C7 -/

theorem mem_sortedSet {a : String} {l : List String} : a ∈ sortedSet l ↔ a ∈ l := by
  unfold sortedSet sortStrings
  rw [List.mem_mergeSort, List.mem_dedup]

theorem sortedSet_nodup (l : List String) : (sortedSet l).Nodup :=
  ((List.mergeSort_perm _ _).nodup_iff).mpr (List.nodup_dedup l)

theorem sortedSet_sorted (l : List String) : (sortedSet l).Sorted (· ≤ ·) :=
  List.sorted_mergeSort' _

theorem mem_mergeLists_left {base : List String} {extra : ExtraField} :
    ∀ n ∈ base, n ∈ mergeLists base extra := by
  intro n hn
  cases extra with
  | null => simpa [mergeLists] using hn
  | str s =>
    by_cases hc : pyStrip s ≠ ""
    · simp only [mergeLists]
      rw [if_pos hc]
      exact List.mem_append_left _ hn
    · simp only [mergeLists]
      rw [if_neg hc]
      exact hn
  | items l =>
    simp only [mergeLists]
    exact List.mem_append_left _ hn

/-- Claim C7: the audited snapshot is a floor over the baseline: every
baseline covered node name stays covered and every baseline uncovered name
stays uncovered; model-reported names are only added (the result is the
deduplicated, sorted union of baseline and stripped model names); the
no-model/heuristic path returns the baseline sets unchanged. -/
theorem auditMerge_floor (run_id : String) (baseline : GraphCoverageSnapshot)
    (covExtra uncovExtra : ExtraField) (notes : Option String) :
    (∀ n ∈ baseline.covered_nodes,
      n ∈ (auditMerge run_id baseline covExtra uncovExtra notes).covered_nodes) ∧
    (∀ n ∈ baseline.uncovered_nodes,
      n ∈ (auditMerge run_id baseline covExtra uncovExtra notes).uncovered_nodes) ∧
    (∀ n ∈ (auditMerge run_id baseline covExtra uncovExtra notes).covered_nodes,
      n ∈ mergeLists baseline.covered_nodes covExtra) ∧
    (∀ n ∈ (auditMerge run_id baseline covExtra uncovExtra notes).uncovered_nodes,
      n ∈ mergeLists baseline.uncovered_nodes uncovExtra) ∧
    (auditMerge run_id baseline covExtra uncovExtra notes).covered_nodes.Nodup ∧
    (auditMerge run_id baseline covExtra uncovExtra notes).uncovered_nodes.Nodup ∧
    (auditMerge run_id baseline covExtra uncovExtra notes).covered_nodes.Sorted (· ≤ ·) ∧
    (auditMerge run_id baseline covExtra uncovExtra notes).uncovered_nodes.Sorted (· ≤ ·) ∧
    (heuristicSnapshot baseline).covered_nodes = baseline.covered_nodes ∧
    (heuristicSnapshot baseline).uncovered_nodes = baseline.uncovered_nodes := by
  refine ⟨?_, ?_, ?_, ?_, sortedSet_nodup _, sortedSet_nodup _,
    sortedSet_sorted _, sortedSet_sorted _, rfl, rfl⟩
  · intro n hn
    exact mem_sortedSet.mpr (mem_mergeLists_left n hn)
  · intro n hn
    exact mem_sortedSet.mpr (mem_mergeLists_left n hn)
  · intro n hn
    exact mem_sortedSet.mp hn
  · intro n hn
    exact mem_sortedSet.mp hn

unseal List.merge List.mergeSort in
/-- Claim C7 witness: a concrete audit keeps the baseline covered node
`"Auth"` and uncovered node `"Billing Service"` while the model adds
`"Payments"`. -/
theorem auditMerge_floor_witness :
    "Auth" ∈ (auditMerge "run" sampleSnapshot (.items ["Payments"]) .null none).covered_nodes ∧
    "Billing Service" ∈
      (auditMerge "run" sampleSnapshot (.items ["Payments"]) .null none).uncovered_nodes := by
  have h := auditMerge_floor "run" sampleSnapshot (.items ["Payments"]) .null none
  exact ⟨h.1 "Auth" (by decide), h.2.1 "Billing Service" (by decide)⟩

/-! ## Claim C1 -/

/-- Claim C1: orchestration gating.  `generate_milestones()` before
summary approval raises the invalid-state error, `generate_prompts()`
before milestone approval raises the invalid-state error, and after the
corresponding approval each call succeeds. -/
theorem orchestrator_gating (A : OrchAgents) (s : OrchestratorState)
    (sum : BlueprintSummary) (plan : MilestonePlan) :
    (s.summary = some sum → s.summary_approved = false →
      generateMilestones A s =
        .error "Summary must be approved before generating milestones.") ∧
    (s.summary = some sum → s.milestones = some plan → s.milestones_approved = false →
      generatePrompts A s =
        .error "Milestones must be approved before prompt generation.") ∧
    (s.summary = some sum → ∀ s₂, approveSummary s true = .ok s₂ →
      exceptOk (generateMilestones A s₂) = true) ∧
    (s.summary = some sum → s.milestones = some plan →
      ∀ s₂, approveMilestones s true = .ok s₂ →
      exceptOk (generatePrompts A s₂) = true) := by
  refine ⟨?_, ?_, ?_, ?_⟩
  · intro h1 h2
    unfold generateMilestones
    rw [h1]
    simp [h2]
  · intro h1 h2 h3
    unfold generatePrompts
    rw [h1, h2]
    simp [h3]
  · intro h1 s₂ h2
    unfold approveSummary at h2
    rw [h1] at h2
    simp only [Except.ok.injEq] at h2
    subst h2
    simp [generateMilestones, h1, exceptOk]
  · intro h1 h2 s₂ h3
    unfold approveMilestones at h3
    rw [h2] at h3
    simp only [Except.ok.injEq] at h3
    subst h3
    simp [generatePrompts, h1, h2, exceptOk]

/-- Claim C1 witness: on a concrete session, `generate_milestones` before
`approve_summary(True)` errors and succeeds right after; likewise for
`generate_prompts` around `approve_milestones(True)`. -/
theorem orchestrator_gating_witness :
    generateMilestones sampleAgents readyForMilestones =
      .error "Summary must be approved before generating milestones." ∧
    generatePrompts sampleAgents readyForPrompts =
      .error "Milestones must be approved before prompt generation." ∧
    exceptOk (generateMilestones sampleAgents
      { readyForMilestones with summary_approved := true }) = true ∧
    exceptOk (generatePrompts sampleAgents
      { readyForPrompts with milestones_approved := true }) = true := by
  have h := orchestrator_gating sampleAgents readyForMilestones sampleSummary samplePlan
  have h2 := orchestrator_gating sampleAgents readyForPrompts sampleSummary samplePlan
  exact ⟨h.1 rfl rfl, h2.2.1 rfl rfl rfl,
    h.2.2.1 rfl { readyForMilestones with summary_approved := true } rfl,
    h2.2.2.2 rfl rfl { readyForPrompts with milestones_approved := true } rfl⟩

/-! ## Claim C10 -/

theorem finalize_congr (s : OrchestratorState) (b : Option String) (a1 a2 : Bool) :
    finalize { s with blueprint_text := b, summary_approved := a1, milestones_approved := a2 } =
      finalize s := by
  cases s
  rfl

/-- Claim C10: `finalize()` checks only that the summary, milestone plan
and prompt bundle exist: it succeeds exactly when all three artifacts are
present, regardless of the approval flags, and rejecting the milestones or
the summary after prompt generation does not change its result. -/
theorem finalize_artifact_check (s : OrchestratorState) :
    (exceptOk (finalize s) = true ↔
      (s.summary ≠ none ∧ s.milestones ≠ none ∧ s.prompts ≠ none)) ∧
    (∀ s₂, approveMilestones s false = .ok s₂ → finalize s₂ = finalize s) ∧
    (∀ s₂, approveSummary s false = .ok s₂ → finalize s₂ = finalize s) ∧
    ((s.summary = none ∨ s.milestones = none ∨ s.prompts = none) →
      finalize s = .error "Workflow incomplete. Ensure prompts are generated before finalizing.") := by
  refine ⟨?_, ?_, ?_, ?_⟩
  · rcases hs : s.summary with _ | sum <;>
      rcases hm : s.milestones with _ | plan <;>
      rcases hp : s.prompts with _ | prompts <;>
      simp [finalize, exceptOk, hs, hm, hp]
  · intro s₂ h
    unfold approveMilestones at h
    rcases hm : s.milestones with _ | plan
    · rw [hm] at h
      cases h
    · rw [hm] at h
      simp only [Except.ok.injEq] at h
      subst h
      rw [← hm]
      have := finalize_congr s s.blueprint_text s.summary_approved false
      simpa using this
  · intro s₂ h
    unfold approveSummary at h
    rcases hs : s.summary with _ | sum
    · rw [hs] at h
      cases h
    · rw [hs] at h
      simp only [Except.ok.injEq] at h
      subst h
      rw [← hs]
      have := finalize_congr s s.blueprint_text false s.milestones_approved
      simpa using this
  · intro hcase
    rcases hs : s.summary with _ | sum <;>
      rcases hm : s.milestones with _ | plan <;>
      rcases hp : s.prompts with _ | prompts <;>
      simp_all [finalize]

/-- Claim C10 witness: with prompts generated and both approvals revoked,
`finalize()` still succeeds; with the prompts missing it raises the
workflow-incomplete error. -/
theorem finalize_artifact_check_witness :
    exceptOk (finalize completedState) = true ∧
    finalize readyForPrompts =
      .error "Workflow incomplete. Ensure prompts are generated before finalizing." := by
  refine ⟨?_, ?_⟩
  · exact (finalize_artifact_check completedState).1.mpr
      ⟨by decide, by decide, by decide⟩
  · exact (finalize_artifact_check readyForPrompts).2.2.2 (Or.inr (Or.inr (by decide)))

/-! ## Claim C5 -/

/-- Claim C5: after `ingest_blueprint` returns (and hence after
`regenerate_summary`, which re-enters it with the stored blueprint text),
the summary-approved flag is false, the milestone plan, milestone-approved
flag, prompt bundle and graph snapshot are cleared, and the coverage graph
is a fresh `GraphStore` seeded only with the new summary's components. -/
theorem ingest_resets_downstream (A : OrchAgents) (s : OrchestratorState) (text : String)
    (sum : BlueprintSummary) (s₂ : OrchestratorState) :
    (ingestBlueprint A s text = .ok (sum, s₂) →
      s₂.summary = some sum ∧ s₂.summary_approved = false ∧ s₂.milestones = none ∧
      s₂.milestones_approved = false ∧ s₂.prompts = none ∧ s₂.graph_snapshot = none ∧
      s₂.graph = loadComponents (emptyGraph s.run_id) sum.components ∧
      sum = A.summarize s.run_id text) ∧
    (∀ t, s.blueprint_text = some t → t ≠ "" →
      regenerateSummary A s = ingestBlueprint A s t) := by
  constructor
  · intro h
    unfold ingestBlueprint at h
    split at h
    · cases h
    · simp only [Except.ok.injEq, Prod.mk.injEq] at h
      obtain ⟨hsum, hst⟩ := h
      subst hsum
      subst hst
      exact ⟨rfl, rfl, rfl, rfl, rfl, rfl, rfl, rfl⟩
  · intro t ht hne
    unfold regenerateSummary
    rw [ht]
    simp [hne]

/-- Claim C5 witness: ingesting a concrete blueprint into a session that
already holds milestones, prompts and approvals clears all of them and
reseeds the graph from the new summary's components. -/
theorem ingest_resets_downstream_witness :
    ∃ s₂, ingestBlueprint sampleAgents completedState "new text" = .ok (sampleSummary, s₂) ∧
      s₂.summary_approved = false ∧ s₂.milestones = none ∧ s₂.milestones_approved = false ∧
      s₂.prompts = none ∧ s₂.graph_snapshot = none ∧
      s₂.graph = loadComponents (emptyGraph "run") sampleSummary.components := by
  have h := (ingest_resets_downstream sampleAgents completedState "new text" sampleSummary
    { completedState with
      blueprint_text := some "new text"
      summary := some sampleSummary
      summary_approved := false
      milestones := none
      milestones_approved := false
      prompts := none
      graph_snapshot := none
      graph := loadComponents (emptyGraph "run") sampleSummary.components }).1
    (by
      unfold ingestBlueprint
      rw [if_neg (by decide)]
      rfl)
  exact ⟨_, rfl, h.2.1, h.2.2.1, h.2.2.2.1, h.2.2.2.2.1, h.2.2.2.2.2.1, h.2.2.2.2.2.2.1⟩

/-! ## Claim C3 -/

/-- Claim C3 (code bug): the decomposer's attempt loop retries on any
truthy finish reason, not only on length truncation.  With two attempts
and a first call returning empty content with
`finish_reason="content_filter"`, `_generate_step_with_gpt` makes a second
call and succeeds, whereas the claim (and the coordinator's own loop,
evaluated on the same oracle for contrast) treats every non-`"length"`
empty-content outcome as terminal.  The decomposer's retry branch even
logs "response truncated" / `agent.decomposer.retry_length` while taking
it for `"content_filter"`. -/
theorem decomposer_retries_on_nonlength :
    decomposerAttemptLoop
      (fun i => if i = 0 then ⟨true, "", some "content_filter", false, none⟩
        else ⟨true, "ok", none, false, none⟩)
      [⟨18000, none, 1500⟩, ⟨13500, some 3, 2500⟩] 0 = (.success "ok", 2) ∧
    coordinatorRequestLoop
      (fun i => if i = 0 then ⟨true, "", some "content_filter", false, none⟩
        else ⟨true, "ok", none, false, none⟩)
      [900, 1500] 0 = (.emptyContentFailure (some "content_filter") false none, 1) := by
  exact ⟨rfl, rfl⟩

/-! ## Claim C4 -/

theorem countP_succ_lt {n : Int} {ex : List Int} (h : n ∈ ex) :
    ex.countP (fun x => decide (n + 1 ≤ x)) < ex.countP (fun x => decide (n ≤ x)) := by
  induction ex with
  | nil => cases h
  | cons x xs ih =>
    rw [List.countP_cons, List.countP_cons]
    rcases List.mem_cons.mp h with rfl | hx
    · have h1 : (decide (n + 1 ≤ n)) = false := by
        simp only [decide_eq_false_iff_not]
        omega
      have h2 : (decide (n ≤ n)) = true := by simp
      rw [h1, h2]
      have hmono : xs.countP (fun x => decide (n + 1 ≤ x)) ≤
          xs.countP (fun x => decide (n ≤ x)) := by
        apply List.countP_mono_left
        intro a _ ha
        simp only [decide_eq_true_eq] at ha ⊢
        omega
      simp only [if_false, if_true, Bool.false_eq_true]
      omega
    · have hih := ih hx
      have hmono : (if (decide (n + 1 ≤ x)) = true then 1 else 0) ≤
          (if (decide (n ≤ x)) = true then 1 else 0) := by
        by_cases hc : n + 1 ≤ x
        · have hc2 : n ≤ x := by omega
          simp [hc, hc2]
        · simp [hc]
      omega

theorem nextFreeAux_spec : ∀ (fuel : Nat) (ex : List Int) (n : Int),
    ex.countP (fun x => decide (n ≤ x)) < fuel →
    nextFreeAux ex fuel n ∉ ex ∧ n ≤ nextFreeAux ex fuel n := by
  intro fuel
  induction fuel with
  | zero =>
    intro ex n h
    exact absurd h (Nat.not_lt_zero _)
  | succ fuel ih =>
    intro ex n h
    simp only [nextFreeAux]
    by_cases hn : n ∈ ex
    · rw [if_pos hn]
      have hlt := countP_succ_lt hn
      obtain ⟨h1, h2⟩ := ih ex (n + 1) (by omega)
      exact ⟨h1, by omega⟩
    · rw [if_neg hn]
      exact ⟨hn, le_refl n⟩

theorem nextFree_spec (ex : List Int) (n : Int) :
    nextFree ex n ∉ ex ∧ n ≤ nextFree ex n := by
  apply nextFreeAux_spec
  have := @List.countP_le_length _ (fun x => decide (n ≤ x)) ex
  omega

theorem padLoopAux_spec : ∀ (fuel : Nat) (f : List Milestone) (ex : List Int) (nid : Int),
    5 - f.length ≤ fuel →
    (padLoopAux fuel f ex nid).length = max 5 f.length ∧
    ∀ m ∈ padLoopAux fuel f ex nid,
      m ∈ f ∨ (m.milestone_id ∉ ex ∧ m = mkPadMilestone m.milestone_id) := by
  intro fuel
  induction fuel with
  | zero =>
    intro f ex nid hk
    simp only [padLoopAux]
    constructor
    · exact (Nat.max_eq_right (by omega)).symm
    · intro m hm
      exact Or.inl hm
  | succ fuel ih =>
    intro f ex nid hk
    by_cases hlt : f.length < 5
    · simp only [padLoopAux]
      rw [if_pos hlt]
      have hfree := nextFree_spec ex nid
      obtain ⟨ihlen, ihmem⟩ := ih (f ++ [mkPadMilestone (nextFree ex nid)])
        (nextFree ex nid :: ex) (nextFree ex nid + 1)
        (by
          simp only [List.length_append, List.length_cons, List.length_nil]
          omega)
      constructor
      · rw [ihlen]
        simp only [List.length_append, List.length_cons, List.length_nil]
        have h5a : max 5 (f.length + 1) = 5 ⊔ (f.length + 1) := rfl
        have h5b : max 5 (f.length + 1) = 5 := Nat.max_eq_left (by omega)
        have h5c : max 5 f.length = 5 := Nat.max_eq_left (by omega)
        omega
      · intro m hm
        rcases ihmem m hm with hmem | ⟨hnot, hpad⟩
        · rcases List.mem_append.mp hmem with hf | hone
          · exact Or.inl hf
          · have hmk : m = mkPadMilestone (nextFree ex nid) := by
              simpa using hone
            refine Or.inr ⟨?_, ?_⟩
            · rw [hmk]
              exact hfree.1
            · rw [hmk]
              rfl
        · refine Or.inr ⟨?_, hpad⟩
          intro hmem2
          exact hnot (List.mem_cons_of_mem _ hmem2)
    · simp only [padLoopAux]
      rw [if_neg hlt]
      constructor
      · exact (Nat.max_eq_right (by omega)).symm
      · intro m hm
        exact Or.inl hm

theorem padLoop_spec (f : List Milestone) (ex : List Int) (nid : Int) :
    (padLoop f ex nid).length = max 5 f.length ∧
    ∀ m ∈ padLoop f ex nid,
      m ∈ f ∨ (m.milestone_id ∉ ex ∧ m = mkPadMilestone m.milestone_id) :=
  padLoopAux_spec 5 f ex nid (by omega)

theorem milestoneIdLe_trans : ∀ (a b c : Milestone),
    milestoneIdLe a b → milestoneIdLe b c → milestoneIdLe a c := by
  intro a b c hab hbc
  simp only [milestoneIdLe, decide_eq_true_eq] at hab hbc ⊢
  omega

theorem milestoneIdLe_total : ∀ (a b : Milestone),
    milestoneIdLe a b || milestoneIdLe b a := by
  intro a b
  simp only [milestoneIdLe]
  by_cases h : a.milestone_id ≤ b.milestone_id
  · simp [h]
  · simp [h]
    omega

/-- Claim C4: `_ensure_five_milestones` always returns exactly five
milestones, each either a surviving model milestone (non-empty details) or
a deterministic padding milestone whose id was not already used, sorted by
`milestone_id` (truncation happens after sorting); the heuristic no-model
path returns exactly five milestones with ids `1..5`. -/
theorem ensureFive_exactly_five (ms : List Milestone) (run_id : String)
    (summary : BlueprintSummary) :
    (ensureFiveMilestones ms).length = 5 ∧
    (∀ m ∈ ensureFiveMilestones ms,
      m ∈ ms.filter (fun x => x.details ≠ "") ∨
      (m.milestone_id ∉ (ms.filter (fun x => x.details ≠ "")).map (fun x => x.milestone_id) ∧
        m = mkPadMilestone m.milestone_id)) ∧
    (ensureFiveMilestones ms).Sorted (fun a b => a.milestone_id ≤ b.milestone_id) ∧
    (heuristicMilestones run_id summary).milestones.map (fun m => m.milestone_id) =
      [1, 2, 3, 4, 5] := by
  obtain ⟨hlen, hmem⟩ := padLoop_spec
    (ms.filter (fun x => x.details ≠ ""))
    ((ms.filter (fun x => x.details ≠ "")).map (fun x => x.milestone_id)) 1
  refine ⟨?_, ?_, ?_, rfl⟩
  · unfold ensureFiveMilestones
    rw [List.length_take, (List.mergeSort_perm _ _).length_eq, hlen]
    have h5 : 5 ≤ max 5 (ms.filter (fun x => x.details ≠ "")).length := Nat.le_max_left _ _
    omega
  · intro m hm
    have hm2 : m ∈ (padLoop (ms.filter (fun x => x.details ≠ ""))
        ((ms.filter (fun x => x.details ≠ "")).map (fun x => x.milestone_id)) 1).mergeSort
          milestoneIdLe := (List.take_sublist _ _).subset hm
    exact hmem m (List.mem_mergeSort.mp hm2)
  · have hsorted := List.sorted_mergeSort milestoneIdLe_trans milestoneIdLe_total
      (padLoop (ms.filter (fun x => x.details ≠ ""))
        ((ms.filter (fun x => x.details ≠ "")).map (fun x => x.milestone_id)) 1)
    have htake : (ensureFiveMilestones ms).Pairwise (fun a b => milestoneIdLe a b = true) :=
      List.Pairwise.sublist (List.take_sublist _ _) hsorted
    exact htake.imp (fun h => by
      simpa [milestoneIdLe, decide_eq_true_eq] using h)

unseal List.merge List.mergeSort in
/-- Claim C4 witness: a single valid model milestone with id 3 is padded
to exactly five milestones; the padding milestone with id 1 uses an id not
already taken. -/
theorem ensureFive_exactly_five_witness :
    (ensureFiveMilestones [⟨3, "x", "c"⟩]).length = 5 ∧
    (mkPadMilestone 1 ∈ [(⟨3, "x", "c"⟩ : Milestone)].filter (fun x => x.details ≠ "") ∨
      ((mkPadMilestone 1).milestone_id ∉
        ([(⟨3, "x", "c"⟩ : Milestone)].filter (fun x => x.details ≠ "")).map
          (fun x => x.milestone_id) ∧
        mkPadMilestone 1 = mkPadMilestone (mkPadMilestone 1).milestone_id)) := by
  have h := ensureFive_exactly_five [⟨3, "x", "c"⟩] "run" sampleSummary
  exact ⟨h.1, h.2.1 (mkPadMilestone 1) (by decide)⟩

/-! ## Claim C6 -/

theorem dedupFirstAux_sublist : ∀ (l : List String) (seen : List String),
    List.Sublist (dedupFirstAux seen l) l := by
  intro l
  induction l with
  | nil => intro seen; simp [dedupFirstAux]
  | cons x xs ih =>
    intro seen
    simp only [dedupFirstAux]
    split
    · exact (ih seen).cons x
    · exact (ih (x :: seen)).cons₂ x

theorem dedupFirstAux_props : ∀ (l : List String) (seen : List String),
    (∀ a ∈ dedupFirstAux seen l, a ∉ seen) ∧ (dedupFirstAux seen l).Nodup := by
  intro l
  induction l with
  | nil =>
    intro seen
    constructor
    · simp [dedupFirstAux]
    · simp [dedupFirstAux]
  | cons x xs ih =>
    intro seen
    simp only [dedupFirstAux]
    split
    · exact ih seen
    · rename_i hx
      obtain ⟨hnotin, hnodup⟩ := ih (x :: seen)
      constructor
      · intro a ha
        rcases List.mem_cons.mp ha with rfl | ha2
        · exact hx
        · intro hseen
          exact hnotin a ha2 (List.mem_cons_of_mem _ hseen)
      · refine List.nodup_cons.mpr ⟨?_, hnodup⟩
        intro hmem
        exact hnotin x hmem (List.mem_cons_self _ _)

theorem dedupFirst_nodup (l : List String) : (dedupFirst l).Nodup :=
  (dedupFirstAux_props l []).2

theorem mem_dedupFirst {a : String} {l : List String} (h : a ∈ dedupFirst l) : a ∈ l :=
  (dedupFirstAux_sublist l []).subset h

theorem resolveDeps_spec (lookup : List (String × String)) (validIds : List String)
    (item : PreparedItem) :
    (resolveDeps lookup validIds item).Nodup ∧
    ∀ d ∈ resolveDeps lookup validIds item, d ∈ validIds ∧ d ≠ item.id := by
  refine ⟨dedupFirst_nodup _, ?_⟩
  intro d hd
  have hd2 := mem_dedupFirst hd
  rcases List.mem_filterMap.mp hd2 with ⟨dep, _, hcond⟩
  revert hcond
  split
  · rename_i hc
    intro hsome
    simp only [Option.some.injEq] at hsome
    subst hsome
    exact ⟨hc.2.1, hc.2.2⟩
  · intro h
    cases h

theorem renumber_spec : ∀ (l : List PreparedItem) (k : Nat),
    (∀ o ∈ renumber k l, ∃ a ∈ l, o.id = a.id ∧ o.dependencies = a.dependencies) ∧
    (∀ a ∈ l, ∃ o ∈ renumber k l, o.id = a.id) := by
  intro l
  induction l with
  | nil =>
    intro k
    constructor
    · simp [renumber]
    · simp
  | cons x xs ih =>
    intro k
    obtain ⟨ih1, ih2⟩ := ih (k + 1)
    constructor
    · intro o ho
      rcases List.mem_cons.mp ho with rfl | ho2
      · exact ⟨x, List.mem_cons_self _ _, rfl, rfl⟩
      · obtain ⟨a, ha, hid, hdeps⟩ := ih1 o ho2
        exact ⟨a, List.mem_cons_of_mem _ ha, hid, hdeps⟩
    · intro a ha
      rcases List.mem_cons.mp ha with rfl | ha2
      · exact ⟨_, List.mem_cons_self _ _, rfl⟩
      · obtain ⟨o, ho, hid⟩ := ih2 a ha2
        exact ⟨o, List.mem_cons_of_mem _ ho, hid⟩

/-- Claim C6: after the Coordinator's parsing/resolution step, every
objective's dependency list is duplicate-free and contains only ids that
belong to some other objective of the same batch — never the objective's
own id. -/
theorem parseObjectives_dependency_validity (entries : List RawEntry) :
    ∀ o ∈ parseObjectivesEntries entries,
      o.dependencies.Nodup ∧
      ∀ d ∈ o.dependencies,
        d ≠ o.id ∧ ∃ o₂ ∈ parseObjectivesEntries entries, o₂.id = d := by
  intro o ho
  unfold parseObjectivesEntries at ho ⊢
  by_cases hemp : (prepareEntries entries 0 []).1 = []
  · rw [if_pos hemp] at ho
    exact absurd ho (List.not_mem_nil o)
  · rw [if_neg hemp] at ho ⊢
    obtain ⟨a, hasort, hid, hdeps⟩ := (renumber_spec _ 0).1 o ho
    have haresolved : a ∈ resolveAll (prepareEntries entries 0 []) :=
      List.mem_mergeSort.mp hasort
    obtain ⟨orig, horig, haeq⟩ := List.mem_map.mp haresolved
    obtain ⟨hnodup, hvalid⟩ := resolveDeps_spec (prepareEntries entries 0 []).2
      ((prepareEntries entries 0 []).1.map (fun j => j.id)) orig
    have hadeps : a.dependencies = resolveDeps (prepareEntries entries 0 []).2
        ((prepareEntries entries 0 []).1.map (fun j => j.id)) orig := by
      rw [← haeq]
    have haid : a.id = orig.id := by
      rw [← haeq]
    constructor
    · rw [hdeps, hadeps]
      exact hnodup
    · intro d hd
      rw [hdeps, hadeps] at hd
      obtain ⟨hdval, hdne⟩ := hvalid d hd
      constructor
      · rw [hid, haid]
        exact hdne
      · obtain ⟨orig2, horig2, hid2⟩ := List.mem_map.mp hdval
        have hres2 : { orig2 with dependencies := (resolveDeps (prepareEntries entries 0 []).2
            ((prepareEntries entries 0 []).1.map (fun j => j.id)) orig2) } ∈
              resolveAll (prepareEntries entries 0 []) :=
          List.mem_map.mpr ⟨orig2, horig2, rfl⟩
        have hsort2 : { orig2 with dependencies := (resolveDeps (prepareEntries entries 0 []).2
            ((prepareEntries entries 0 []).1.map (fun j => j.id)) orig2) } ∈
              (resolveAll (prepareEntries entries 0 [])).mergeSort itemLe :=
          List.mem_mergeSort.mpr hres2
        obtain ⟨o₂, ho₂, hido₂⟩ := (renumber_spec _ 0).2 _ hsort2
        exact ⟨o₂, ho₂, by rw [hido₂]; exact hid2⟩

unseal List.merge List.mergeSort in
/-- Claim C6 witness: on concrete entries where `"M2"` cites `"M1"` twice,
itself, and an unknown id, the resolved dependency list is the
duplicate-free `["m1"]`, `"m1"` is not the objective's own id, and `"m1"`
names another objective of the batch. -/
theorem parseObjectives_dependency_validity_witness :
    sampleObjective.dependencies.Nodup ∧
    ("m1" ≠ sampleObjective.id ∧
      ∃ o₂ ∈ parseObjectivesEntries sampleEntries, o₂.id = "m1") := by
  have h := parseObjectives_dependency_validity sampleEntries sampleObjective (by decide)
  exact ⟨h.1, h.2 "m1" (by decide)⟩

end ProjectPlanner
